import Mathlib

/-!
Verification of the log-plotting pipeline in `plotter/main.py`.

The script reads newline-delimited JSON log records, keeps the records whose
`fields` object carries `latency_in_nanos`, extracts
`(frame_count, object_count, latency_ms, size_kb)` per kept record, aggregates
with a pandas two-stage groupby (sum by `(Frame, Object Count)`, then mean by
`Object Count`), sorts by `Object Count`, and fits a degree-1 least-squares
line of latency against object count.

Numbers are modelled by `ℚ` (exact arithmetic).  A parsed input line is a
record of `Option` fields so that missing-JSON-key behaviour (Python
`KeyError`) is representable; a line that is not well-formed JSON is the
`LineInput.malformed` constructor.
-/

/-- The `span` sub-object of a record: `data['span']` in the script. -/
structure Span where
  frame_count : Option Int
  object_count : Option Int
deriving DecidableEq, Repr

/-- The `fields` sub-object of a record: `data['fields']` in the script.
`latency_in_nanos` is the field whose presence gates inclusion. -/
structure Fields where
  latency_in_nanos : Option Int
  msg_len : Option Int
deriving DecidableEq, Repr

/-- One successfully JSON-parsed input line.  Each key the script reads is an
`Option`: `none` models the key being absent (Python would raise `KeyError`
on direct subscripting). -/
structure JsonLine where
  span : Option Span
  fields : Option Fields
deriving DecidableEq, Repr

/-- An input line: either malformed JSON (so `json.loads` raises) or a parsed
object. -/
inductive LineInput where
  | malformed : LineInput
  | parsed : JsonLine → LineInput
deriving DecidableEq, Repr

/-- Errors that abort the run: a JSON parse error from `json.loads`, or a
`KeyError` from subscripting a missing key. -/
inductive LoadErr where
  | malformedJson : LoadErr
  | missingKey : String → LoadErr
deriving DecidableEq, Repr

/-- One extracted row, mirroring the four parallel lists
`frames / object_counts / latencies / sizes` of the script (one index across
all four). -/
structure Row where
  frame : Int
  objectCount : Int
  latencyMs : ℚ
  sizeKb : ℚ
deriving DecidableEq, Repr

/-- One row of the final aggregated table (the `Frame` column is dropped). -/
structure AggRow where
  objectCount : Int
  latencyMs : ℚ
  sizeKb : ℚ
deriving DecidableEq, Repr

/-- Processing of one parsed line, following the loop body of `main.py`
lines 19-25 in evaluation order: `data['fields']` is subscripted first (a
missing `fields` key raises), then the `'latency_in_nanos' not in
data['fields']` test skips the record, and only then are
`span.frame_count`, `span.object_count`, `latency_in_nanos` and `msg_len`
read.  `Except.ok none` is a normal skip; `Except.error` aborts the run. -/
def processLine (j : JsonLine) : Except LoadErr (Option Row) :=
  match j.fields with
  | none => Except.error (LoadErr.missingKey "fields")
  | some fl =>
    match fl.latency_in_nanos with
    | none => Except.ok none
    | some lat =>
      match j.span with
      | none => Except.error (LoadErr.missingKey "span")
      | some sp =>
        match sp.frame_count with
        | none => Except.error (LoadErr.missingKey "frame_count")
        | some fc =>
          match sp.object_count with
          | none => Except.error (LoadErr.missingKey "object_count")
          | some oc =>
            match fl.msg_len with
            | none => Except.error (LoadErr.missingKey "msg_len")
            | some ml =>
              Except.ok (some ⟨fc, oc, (lat : ℚ) / 1000000, (ml : ℚ) / 1024⟩)

/-- One raw line: `json.loads` raises on malformed JSON, otherwise the parsed
object goes through `processLine`. -/
def parseLine : LineInput → Except LoadErr (Option Row)
  | LineInput.malformed => Except.error LoadErr.malformedJson
  | LineInput.parsed j => processLine j

/-- The whole reading loop: lines in encounter order; the first raised error
aborts everything, skipped lines contribute nothing. -/
def loadAll : List LineInput → Except LoadErr (List Row)
  | [] => Except.ok []
  | l :: ls =>
    match parseLine l with
    | Except.error e => Except.error e
    | Except.ok none => loadAll ls
    | Except.ok (some r) =>
      match loadAll ls with
      | Except.error e => Except.error e
      | Except.ok rs => Except.ok (r :: rs)

instance {ε α : Type} [DecidableEq ε] [DecidableEq α] : DecidableEq (Except ε α) :=
  fun a b => by
    cases a <;> cases b <;>
      first
        | (apply isFalse; intro h; exact Except.noConfusion h)
        | (rename_i x y;
           exact decidable_of_iff (x = y) ⟨fun h => by rw [h], fun h => by injection h⟩)

/-- The stage-1 groupby key of a row: the `(Frame, Object Count)` pair. -/
def rowKey (r : Row) : Int × Int := (r.frame, r.objectCount)

/-- Lexicographic order on stage-1 keys; pandas `groupby(['Frame', 'Object
Count'])` sorts group keys this way. -/
def keyLe (a b : Int × Int) : Prop :=
  a.1 < b.1 ∨ (a.1 = b.1 ∧ a.2 ≤ b.2)

instance : DecidableRel keyLe := fun a b => by
  unfold keyLe; infer_instance

instance : IsTotal (Int × Int) keyLe := by
  constructor; intro a b; unfold keyLe; omega

instance : IsTrans (Int × Int) keyLe := by
  constructor; intro a b c hab hbc; unfold keyLe at *; omega

instance : IsAntisymm (Int × Int) keyLe := by
  constructor
  intro a b hab hba
  obtain ⟨a1, a2⟩ := a
  obtain ⟨b1, b2⟩ := b
  unfold keyLe at hab hba
  simp only [Prod.mk.injEq]
  omega

/-- The sorted list of distinct stage-1 keys of a row list. -/
def sKeys (rows : List Row) : List (Int × Int) :=
  List.insertionSort keyLe ((rows.map rowKey).dedup)

/-- Stage-1 group sum of `latencyMs` at a key. -/
def groupSumLat (rows : List Row) (k : Int × Int) : ℚ :=
  ((rows.filter fun r => rowKey r = k).map Row.latencyMs).sum

/-- Stage-1 group sum of `sizeKb` at a key. -/
def groupSumSize (rows : List Row) (k : Int × Int) : ℚ :=
  ((rows.filter fun r => rowKey r = k).map Row.sizeKb).sum

/-- Stage 1: `df.groupby(['Frame', 'Object Count']).sum().reset_index()` —
one row per distinct `(Frame, Object Count)` key, in sorted key order,
carrying the within-group sums. -/
def stage1 (rows : List Row) : List Row :=
  (sKeys rows).map fun k => ⟨k.1, k.2, groupSumLat rows k, groupSumSize rows k⟩

/-- The sorted list of distinct object counts of a row list. -/
def ocList (rows : List Row) : List Int :=
  List.insertionSort (· ≤ ·) ((rows.map Row.objectCount).dedup)

/-- The stage-2 output row at one object count: mean of the input rows with
that object count. -/
def meanRow (rows : List Row) (oc : Int) : AggRow :=
  ⟨oc,
    (((rows.filter fun r => r.objectCount = oc).map Row.latencyMs).sum) /
      (((rows.filter fun r => r.objectCount = oc).length : ℚ)),
    (((rows.filter fun r => r.objectCount = oc).map Row.sizeKb).sum) /
      (((rows.filter fun r => r.objectCount = oc).length : ℚ))⟩

/-- Stage 2: drop `Frame`, then
`df.groupby(['Object Count']).mean().reset_index()` — one row per distinct
object count, in sorted order, carrying within-group means. -/
def stage2 (rows : List Row) : List AggRow :=
  (ocList rows).map (meanRow rows)

/-- Order on aggregated rows used by `df.sort_values(by='Object Count')`. -/
def aggLe (a b : AggRow) : Prop := a.objectCount ≤ b.objectCount

instance : DecidableRel aggLe := fun a b => by
  unfold aggLe; infer_instance

instance : IsTotal AggRow aggLe := by
  constructor; intro a b; unfold aggLe; omega

instance : IsTrans AggRow aggLe := by
  constructor; intro a b c hab hbc; unfold aggLe at *; omega

/-- The full aggregation of `main.py` lines 29-33: stage-1 group-sum,
drop `Frame`, stage-2 group-mean, sort by object count. -/
def aggregate (rows : List Row) : List AggRow :=
  List.insertionSort aggLe (stage2 (stage1 rows))

/-- The whole data pipeline up to the aggregated table: read every line,
abort on the first error, then aggregate the kept rows. -/
def runPipeline (ls : List LineInput) : Except LoadErr (List AggRow) :=
  Except.map aggregate (loadAll ls)

/-- Sum of squares of a list. -/
def sqSum (xs : List ℚ) : ℚ := (xs.map fun x => x * x).sum

/-- Sum of pointwise products of two lists. -/
def dotSum (xs ys : List ℚ) : ℚ := (List.zipWith (· * ·) xs ys).sum

/-- The call `np.polyfit(xs, ys, 1)` modelled exactly: the unique ordinary
least-squares degree-1 coefficients `(slope, intercept)` obtained from the
normal equations, or `none` when the system is degenerate (fewer than two
distinct x values make the determinant vanish, so no unique minimiser
exists — numpy warns of a rank-deficient fit there). -/
def polyfit1 (xs ys : List ℚ) : Option (ℚ × ℚ) :=
  if (xs.length : ℚ) * sqSum xs - xs.sum * xs.sum = 0 then none
  else
    some
      (((xs.length : ℚ) * dotSum xs ys - xs.sum * ys.sum) /
          ((xs.length : ℚ) * sqSum xs - xs.sum * xs.sum),
        (sqSum xs * ys.sum - xs.sum * dotSum xs ys) /
          ((xs.length : ℚ) * sqSum xs - xs.sum * xs.sum))

/-- Line 35 of `main.py`: the trend fit over the aggregated table, latency
against object count, applied unconditionally (no guard on table size). -/
def fitLine (rows : List Row) : Option (ℚ × ℚ) :=
  polyfit1 ((aggregate rows).map fun a => (a.objectCount : ℚ))
    ((aggregate rows).map AggRow.latencyMs)

/-- The distinct frames contributing to a given object count, read off the
stage-1 key list. -/
def framesOf (rows : List Row) (oc : Int) : List Int :=
  ((sKeys rows).filter fun k => k.2 = oc).map Prod.fst

/-- Forgetting the frame of a row: the row as it appears in the final
aggregated table when aggregation leaves its values untouched. -/
def toAgg (r : Row) : AggRow :=
  ⟨r.objectCount, r.latencyMs, r.sizeKb⟩

/-- The synthetic pair of records of the spec: same frame (1) and object
count (5), latencies 10 ms and 20 ms (and sizes 10 KB and 20 KB). -/
def rowsC1 : List Row := [⟨1, 5, 10, 10⟩, ⟨1, 5, 20, 20⟩]

/-- A concrete kept record for the C3 witness. -/
def jC3 : JsonLine := ⟨some ⟨some 1, some 2⟩, some ⟨some 7, some 2048⟩⟩

/-- A table with one row per distinct object count but not sorted by object
count: the C6 counterexample input. -/
def tableC6 : List Row := [⟨0, 2, 1, 1⟩, ⟨0, 1, 1, 1⟩]

/-- A table with one row per distinct object count, sorted ascending: the
C6 witness input. -/
def rowsC6 : List Row := [⟨5, 1, 3, 3⟩, ⟨7, 2, 4, 4⟩]

/-- Two records used to witness order-invariance of the aggregation. -/
def rowA : Row := ⟨1, 5, 10, 1⟩

/-- Second record for the order-invariance witness. -/
def rowB : Row := ⟨2, 6, 20, 2⟩

/-- Two frames at a single object count: a degenerate input for the trend
fit. -/
def rowsC8 : List Row := [⟨1, 5, 10, 1⟩, ⟨2, 5, 20, 2⟩]

/-- A well-formed line preceding the malformed one in the C9 witness. -/
def lineC9 : JsonLine := ⟨some ⟨some 1, some 2⟩, some ⟨some 3, some 4⟩⟩

lemma map_objectCount_stage2 (rows : List Row) :
    (stage2 rows).map AggRow.objectCount = ocList rows := by
  unfold stage2
  rw [List.map_map]
  exact List.map_id _

lemma sorted_ocList (rows : List Row) : List.Sorted (· ≤ ·) (ocList rows) :=
  List.sorted_insertionSort _ _

lemma nodup_ocList (rows : List Row) : (ocList rows).Nodup :=
  (List.perm_insertionSort _ _).nodup_iff.mpr (List.nodup_dedup _)

lemma sorted_stage2 (rows : List Row) : List.Sorted aggLe (stage2 rows) := by
  have h := sorted_ocList rows
  unfold stage2
  unfold List.Sorted at h ⊢
  rw [List.pairwise_map]
  exact h.imp fun hab => hab

lemma aggregate_eq_stage2 (rows : List Row) :
    aggregate rows = stage2 (stage1 rows) :=
  (sorted_stage2 (stage1 rows)).insertionSort_eq

lemma mem_aggregate (rows : List Row) (a : AggRow) :
    a ∈ aggregate rows ↔
      ∃ oc ∈ ocList (stage1 rows), meanRow (stage1 rows) oc = a := by
  rw [aggregate_eq_stage2]
  unfold stage2
  exact List.mem_map

lemma nodup_map_oc_aggregate (rows : List Row) :
    ((aggregate rows).map AggRow.objectCount).Nodup := by
  rw [aggregate_eq_stage2, map_objectCount_stage2]
  exact nodup_ocList _

lemma pairwise_lt_of_le_nodup :
    ∀ {l : List Int}, l.Pairwise (· ≤ ·) → l.Nodup → l.Pairwise (· < ·)
  | [], _, _ => List.Pairwise.nil
  | a :: l, hle, hne => by
    rw [List.pairwise_cons] at hle ⊢
    rw [List.nodup_cons] at hne
    exact ⟨fun b hb => lt_of_le_of_ne (hle.1 b hb) fun h => hne.1 (h ▸ hb),
      pairwise_lt_of_le_nodup hle.2 hne.2⟩

lemma filter_stage1 (rows : List Row) (oc : Int) :
    (stage1 rows).filter (fun r => r.objectCount = oc) =
      ((sKeys rows).filter fun k => k.2 = oc).map
        fun k => ⟨k.1, k.2, groupSumLat rows k, groupSumSize rows k⟩ := by
  unfold stage1
  exact List.filter_map _ _

/-- C2: on the spec's two example input lines (frames 1 and 2, both at object
count 10, latencies 5 ms and 15 ms, sizes 2 KB and 4 KB after conversion),
the pipeline produces exactly one aggregated row: object count 10, latency
10 ms, size 3 KB. -/
theorem pipeline_end_to_end :
    runPipeline
      [LineInput.parsed ⟨some ⟨some 1, some 10⟩, some ⟨some 5000000, some 2048⟩⟩,
       LineInput.parsed ⟨some ⟨some 2, some 10⟩, some ⟨some 15000000, some 4096⟩⟩] =
      Except.ok [⟨10, 10, 3⟩] := by
  norm_num [runPipeline, Except.map, loadAll, parseLine, processLine, aggregate,
    stage2, stage1, sKeys, ocList, meanRow, groupSumLat, groupSumSize, rowKey,
    keyLe, aggLe, List.insertionSort, List.orderedInsert, List.dedup,
    List.pwFilter, List.filter]

/-- C1: the aggregation is the two-stage grouped reduction of the spec: every
row of the final table carries, for its object count, the arithmetic mean —
across the distinct frames contributing to that object count — of the
stage-1 per-`(frame, object_count)` sums of `latency_ms` and `size_kb`. -/
theorem agg_mean_of_frame_sums (rows : List Row) (a : AggRow)
    (ha : a ∈ aggregate rows) :
    a.latencyMs =
      ((framesOf rows a.objectCount).map fun f =>
          groupSumLat rows (f, a.objectCount)).sum /
        ((framesOf rows a.objectCount).length : ℚ) ∧
    a.sizeKb =
      ((framesOf rows a.objectCount).map fun f =>
          groupSumSize rows (f, a.objectCount)).sum /
        ((framesOf rows a.objectCount).length : ℚ) := by
  obtain ⟨oc, -, rfl⟩ := (mem_aggregate rows a).mp ha
  simp only [meanRow, framesOf]
  rw [filter_stage1]
  simp only [List.map_map, List.length_map]
  constructor
  · congr 1
    refine congrArg List.sum (List.map_congr_left ?_)
    intro k hk
    have h2 : k.2 = oc := of_decide_eq_true (List.mem_filter.mp hk).2
    show groupSumLat rows k = groupSumLat rows (k.1, oc)
    rw [← h2]
  · congr 1
    refine congrArg List.sum (List.map_congr_left ?_)
    intro k hk
    have h2 : k.2 = oc := of_decide_eq_true (List.mem_filter.mp hk).2
    show groupSumSize rows k = groupSumSize rows (k.1, oc)
    rw [← h2]

/-- Witness for C1 at the spec's synthetic pair: the stage-1 sum for the
`(frame 1, object_count 5)` pair is 30 before it enters the cross-frame
mean, and the aggregated row satisfies the mean-of-stage-1-sums formula. -/
theorem agg_mean_of_frame_sums_witness :
    groupSumLat rowsC1 (1, 5) = 30 ∧
    stage1 rowsC1 = [⟨1, 5, 30, 30⟩] ∧
    AggRow.mk 5 30 30 ∈ aggregate rowsC1 ∧
    ((AggRow.mk 5 30 30).latencyMs =
        ((framesOf rowsC1 5).map fun f => groupSumLat rowsC1 (f, 5)).sum /
          ((framesOf rowsC1 5).length : ℚ) ∧
      (AggRow.mk 5 30 30).sizeKb =
        ((framesOf rowsC1 5).map fun f => groupSumSize rowsC1 (f, 5)).sum /
          ((framesOf rowsC1 5).length : ℚ)) := by
  have hmem : AggRow.mk 5 30 30 ∈ aggregate rowsC1 := by
    norm_num [aggregate, stage2, stage1, sKeys, ocList, meanRow, groupSumLat,
      groupSumSize, rowKey, keyLe, aggLe, rowsC1, List.insertionSort,
      List.orderedInsert, List.dedup, List.pwFilter, List.filter]
  refine ⟨?_, ?_, hmem, agg_mean_of_frame_sums rowsC1 _ hmem⟩
  · norm_num [groupSumLat, rowKey, rowsC1, List.filter]
  · norm_num [stage1, sKeys, groupSumLat, groupSumSize, rowKey, keyLe, rowsC1,
      List.insertionSort, List.orderedInsert, List.dedup, List.pwFilter,
      List.filter]

/-- C5: in the final aggregated table the object counts are strictly sorted
ascending, and hence each object count appears in exactly one row. -/
theorem agg_sorted_and_unique (rows : List Row) :
    List.Sorted (· < ·) ((aggregate rows).map AggRow.objectCount) ∧
      ((aggregate rows).map AggRow.objectCount).Nodup := by
  constructor
  · rw [aggregate_eq_stage2, map_objectCount_stage2]
    exact pairwise_lt_of_le_nodup (sorted_ocList _) (nodup_ocList _)
  · exact nodup_map_oc_aggregate rows

/-- C3: every kept record's extracted values are exactly the scalar divisions
`latency_in_nanos / 1000000` and `msg_len / 1024`, with no other adjustment. -/
theorem kept_record_unit_conversions (j : JsonLine) (r : Row)
    (h : processLine j = Except.ok (some r)) :
    ∃ fl lat ml, j.fields = some fl ∧ fl.latency_in_nanos = some lat ∧
      fl.msg_len = some ml ∧
      r.latencyMs = (lat : ℚ) / 1000000 ∧ r.sizeKb = (ml : ℚ) / 1024 := by
  rcases j with ⟨sp, flOpt⟩
  cases flOpt with
  | none => simp [processLine] at h
  | some fl =>
    rcases fl with ⟨latOpt, mlOpt⟩
    cases latOpt with
    | none => simp [processLine] at h
    | some lat =>
      cases sp with
      | none => simp [processLine] at h
      | some sp =>
        rcases sp with ⟨fcOpt, ocOpt⟩
        cases fcOpt with
        | none => simp [processLine] at h
        | some fc =>
          cases ocOpt with
          | none => simp [processLine] at h
          | some oc =>
            cases mlOpt with
            | none => simp [processLine] at h
            | some ml =>
              simp only [processLine, Except.ok.injEq, Option.some.injEq] at h
              exact ⟨⟨some lat, some ml⟩, lat, ml, rfl, rfl, rfl,
                by rw [← h], by rw [← h]⟩

/-- Witness for C3 at a concrete kept record. -/
theorem kept_record_unit_conversions_witness :
    processLine jC3 = Except.ok (some ⟨1, 2, (7 : ℚ) / 1000000, (2048 : ℚ) / 1024⟩) ∧
      ∃ fl lat ml, jC3.fields = some fl ∧ fl.latency_in_nanos = some lat ∧
        fl.msg_len = some ml ∧
        (Row.mk 1 2 ((7 : ℚ) / 1000000) ((2048 : ℚ) / 1024)).latencyMs =
          (lat : ℚ) / 1000000 ∧
        (Row.mk 1 2 ((7 : ℚ) / 1000000) ((2048 : ℚ) / 1024)).sizeKb =
          (ml : ℚ) / 1024 :=
  ⟨rfl, kept_record_unit_conversions jC3 _ rfl⟩

/-- C4: for a record of the documented input shape (span and `msg_len`
present), the record contributes a row iff `latency_in_nanos` is present in
its fields object, and when it is absent the record is skipped normally
(`Except.ok none`): no row, no error. -/
theorem inclusion_iff_latency_present (fc oc ml : Int) (latOpt : Option Int) :
    ((∃ r, processLine ⟨some ⟨some fc, some oc⟩, some ⟨latOpt, some ml⟩⟩ =
        Except.ok (some r)) ↔ latOpt ≠ none) ∧
    (latOpt = none →
      processLine ⟨some ⟨some fc, some oc⟩, some ⟨latOpt, some ml⟩⟩ =
        Except.ok none) := by
  cases latOpt with
  | none => simp [processLine]
  | some lat => simp [processLine]

/-- Witness for C4: a concrete record lacking `latency_in_nanos` is skipped
with no error and contributes no row. -/
theorem inclusion_iff_latency_present_witness :
    (none : Option Int) = none ∧
      processLine ⟨some ⟨some 1, some 2⟩, some ⟨none, some 3⟩⟩ =
        Except.ok none :=
  ⟨rfl, (inclusion_iff_latency_present 1 2 3 none).2 rfl⟩

/-- C10: the latency presence test runs after only the `fields` lookup: a
parsed line whose fields object lacks `latency_in_nanos` is skipped no matter
what the rest of the record looks like (even with `span` or `msg_len`
missing), while a parsed line with no `fields` key at all raises a lookup
error instead of being skipped. -/
theorem fields_lookup_precedes_presence_check :
    (∀ (sp : Option Span) (mlOpt : Option Int),
        processLine ⟨sp, some ⟨none, mlOpt⟩⟩ = Except.ok none) ∧
    (∀ sp : Option Span,
        processLine ⟨sp, none⟩ = Except.error (LoadErr.missingKey "fields")) :=
  ⟨fun _ _ => rfl, fun _ => rfl⟩

/-- C9: a malformed JSON line is fatal.  Any line list containing one ends in
an error (so no aggregated output is produced), and when every earlier line
parses fine the error is exactly the JSON parse error, whatever follows. -/
theorem malformed_line_aborts :
    (∀ ls : List LineInput, LineInput.malformed ∈ ls →
        ∃ e, loadAll ls = Except.error e) ∧
    (∀ pre post : List LineInput,
        (∀ l ∈ pre, ∃ res, parseLine l = Except.ok res) →
        loadAll (pre ++ LineInput.malformed :: post) =
          Except.error LoadErr.malformedJson) := by
  constructor
  · intro ls hm
    induction ls with
    | nil => cases hm
    | cons l tl ih =>
      rcases List.mem_cons.mp hm with rfl | hm2
      · exact ⟨LoadErr.malformedJson, rfl⟩
      · obtain ⟨e, he⟩ := ih hm2
        cases hp : parseLine l with
        | error e2 => exact ⟨e2, by simp [loadAll, hp]⟩
        | ok o =>
          cases o with
          | none => exact ⟨e, by simp [loadAll, hp, he]⟩
          | some r => exact ⟨e, by simp [loadAll, hp, he]⟩
  · intro pre post hpre
    induction pre with
    | nil => simp [loadAll, parseLine]
    | cons l tl ih =>
      obtain ⟨res, hres⟩ := hpre l (List.mem_cons_self l tl)
      have ih2 := ih fun x hx => hpre x (List.mem_cons_of_mem _ hx)
      cases res with
      | none => simp [loadAll, hres, ih2]
      | some r => simp [loadAll, hres, ih2]

/-- Witness for C9: one good line followed by a malformed one aborts the
whole run with the JSON parse error — the good line's row is not returned. -/
theorem malformed_line_aborts_witness :
    loadAll [LineInput.parsed lineC9, LineInput.malformed] =
      Except.error LoadErr.malformedJson := by
  have hpre : ∀ l ∈ [LineInput.parsed lineC9],
      ∃ res, parseLine l = Except.ok res := by
    intro l hl
    rw [List.mem_singleton] at hl
    subst hl
    exact ⟨some ⟨1, 2, (3 : ℚ) / 1000000, (4 : ℚ) / 1024⟩, rfl⟩
  exact malformed_line_aborts.2 [LineInput.parsed lineC9] [] hpre

lemma sKeys_congr_perm {rows rows2 : List Row} (h : rows.Perm rows2) :
    sKeys rows = sKeys rows2 := by
  unfold sKeys
  refine List.eq_of_perm_of_sorted ?_ (List.sorted_insertionSort _ _)
    (List.sorted_insertionSort _ _)
  exact (List.perm_insertionSort _ _).trans
    (((h.map rowKey).dedup).trans (List.perm_insertionSort _ _).symm)

lemma groupSumLat_congr_perm {rows rows2 : List Row} (h : rows.Perm rows2)
    (k : Int × Int) : groupSumLat rows k = groupSumLat rows2 k :=
  ((h.filter _).map Row.latencyMs).sum_eq

lemma groupSumSize_congr_perm {rows rows2 : List Row} (h : rows.Perm rows2)
    (k : Int × Int) : groupSumSize rows k = groupSumSize rows2 k :=
  ((h.filter _).map Row.sizeKb).sum_eq

lemma stage1_congr_perm {rows rows2 : List Row} (h : rows.Perm rows2) :
    stage1 rows = stage1 rows2 := by
  unfold stage1
  rw [sKeys_congr_perm h]
  exact List.map_congr_left fun k _ => by
    rw [groupSumLat_congr_perm h, groupSumSize_congr_perm h]

lemma ocList_congr_perm {rows rows2 : List Row} (h : rows.Perm rows2) :
    ocList rows = ocList rows2 := by
  unfold ocList
  refine List.eq_of_perm_of_sorted ?_ (List.sorted_insertionSort _ _)
    (List.sorted_insertionSort _ _)
  exact (List.perm_insertionSort _ _).trans
    (((h.map Row.objectCount).dedup).trans (List.perm_insertionSort _ _).symm)

lemma meanRow_congr_perm {rows rows2 : List Row} (h : rows.Perm rows2)
    (oc : Int) : meanRow rows oc = meanRow rows2 oc := by
  unfold meanRow
  rw [((h.filter fun r => r.objectCount = oc).map Row.latencyMs).sum_eq,
    ((h.filter fun r => r.objectCount = oc).map Row.sizeKb).sum_eq,
    (h.filter fun r => r.objectCount = oc).length_eq]

lemma stage2_congr_perm {rows rows2 : List Row} (h : rows.Perm rows2) :
    stage2 rows = stage2 rows2 := by
  unfold stage2
  rw [ocList_congr_perm h]
  exact List.map_congr_left fun oc _ => meanRow_congr_perm h oc

/-- C7: the aggregated table is invariant under any permutation of the kept
records' encounter order (hence under file-iteration order): permuted inputs
produce identical aggregated values per object count. -/
theorem agg_perm_invariant (rows rows2 : List Row) (h : rows.Perm rows2) :
    aggregate rows = aggregate rows2 := by
  unfold aggregate
  rw [stage1_congr_perm h]

/-- Witness for C7: swapping two concrete records leaves the aggregated
table unchanged. -/
theorem agg_perm_invariant_witness :
    aggregate [rowA, rowB] = aggregate [rowB, rowA] :=
  agg_perm_invariant [rowA, rowB] [rowB, rowA] (List.Perm.swap rowB rowA [])

lemma filter_key_eq_singleton {α β : Type} [DecidableEq β] (f : α → β) :
    ∀ (l : List α) (r : α), (l.map f).Nodup → r ∈ l →
      l.filter (fun x => f x = f r) = [r]
  | [], r, _, hr => absurd hr (List.not_mem_nil r)
  | a :: l, r, hnd, hr => by
    rw [List.map_cons, List.nodup_cons] at hnd
    rcases List.mem_cons.mp hr with rfl | hr2
    · rw [List.filter_cons_of_pos (by simp)]
      have hnil : l.filter (fun x => f x = f r) = [] := by
        rw [List.filter_eq_nil_iff]
        intro x hx
        simp only [decide_eq_true_eq]
        intro hfx
        exact hnd.1 (hfx ▸ List.mem_map_of_mem f hx)
      rw [hnil]
    · rw [List.filter_cons_of_neg ?_, filter_key_eq_singleton f l r hnd.2 hr2]
      simp only [decide_eq_true_eq]
      intro hfa
      exact hnd.1 (by rw [hfa]; exact List.mem_map_of_mem f hr2)

lemma stage1_perm_self {rows : List Row} (hk : (rows.map rowKey).Nodup) :
    (stage1 rows).Perm rows := by
  have hds : (rows.map rowKey).dedup = rows.map rowKey :=
    List.dedup_eq_self.mpr hk
  have hperm : (sKeys rows).Perm (rows.map rowKey) := by
    unfold sKeys
    rw [hds]
    exact List.perm_insertionSort _ _
  have hmap : (rows.map rowKey).map
      (fun k => (⟨k.1, k.2, groupSumLat rows k, groupSumSize rows k⟩ : Row)) =
        rows := by
    rw [List.map_map]
    have hpt : ∀ r ∈ rows,
        ((fun k =>
            (⟨k.1, k.2, groupSumLat rows k, groupSumSize rows k⟩ : Row)) ∘
          rowKey) r = id r := by
      intro r hr
      have hs := filter_key_eq_singleton rowKey rows r hk hr
      show (⟨(rowKey r).1, (rowKey r).2, groupSumLat rows (rowKey r),
        groupSumSize rows (rowKey r)⟩ : Row) = r
      unfold groupSumLat groupSumSize
      rw [hs]
      simp [rowKey]
    rw [List.map_congr_left hpt, List.map_id]
  unfold stage1
  refine (hperm.map _).trans ?_
  rw [hmap]

lemma stage2_eq_of_sorted {rows : List Row}
    (h : List.Sorted (· < ·) (rows.map Row.objectCount)) :
    stage2 rows = rows.map toAgg := by
  have hnd : (rows.map Row.objectCount).Nodup := h.imp fun hab => ne_of_lt hab
  have hle : List.Sorted (· ≤ ·) (rows.map Row.objectCount) :=
    h.imp fun hab => le_of_lt hab
  have hoc : ocList rows = rows.map Row.objectCount := by
    unfold ocList
    rw [List.dedup_eq_self.mpr hnd]
    exact hle.insertionSort_eq
  unfold stage2
  rw [hoc, List.map_map]
  refine List.map_congr_left ?_
  intro r hr
  show meanRow rows r.objectCount = toAgg r
  have hs := filter_key_eq_singleton Row.objectCount rows r hnd hr
  unfold meanRow toAgg
  rw [hs]
  simp

lemma sorted_aggLe_of_sorted_oc {rows : List Row}
    (hle : List.Sorted (· ≤ ·) (rows.map Row.objectCount)) :
    List.Sorted aggLe (rows.map toAgg) := by
  unfold List.Sorted at hle ⊢
  rw [List.pairwise_map] at hle ⊢
  exact hle.imp fun hab => hab

/-- C6 counterexample: a table with exactly one row per distinct object
count, but not sorted by object count, is changed by the two-stage reduction
(the rows come back sorted, so the table differs from the input). -/
theorem agg_idem_counterexample :
    (tableC6.map Row.objectCount).Nodup ∧
      aggregate tableC6 ≠ tableC6.map toAgg := by
  refine ⟨by decide, fun hEq => ?_⟩
  have h1 : aggregate tableC6 = [⟨1, 1, 1⟩, ⟨2, 1, 1⟩] := by
    norm_num [aggregate, stage2, stage1, sKeys, ocList, meanRow, groupSumLat,
      groupSumSize, rowKey, keyLe, aggLe, tableC6, List.insertionSort,
      List.orderedInsert, List.dedup, List.pwFilter, List.filter]
  have h2 : tableC6.map toAgg = [⟨2, 1, 1⟩, ⟨1, 1, 1⟩] := by
    norm_num [tableC6, toAgg]
  rw [h1, h2] at hEq
  simp only [List.cons.injEq, AggRow.mk.injEq] at hEq
  exact absurd hEq.1.1 (by norm_num)

/-- C6 (amended): applying the two-stage grouped reduction to a table that
already has exactly one row per distinct object count AND is sorted
ascending by object count — i.e. a table of the form aggregation itself
produces — yields the same table. -/
theorem agg_idempotent_on_sorted (rows : List Row)
    (h : List.Sorted (· < ·) (rows.map Row.objectCount)) :
    aggregate rows = rows.map toAgg := by
  have hnd : (rows.map Row.objectCount).Nodup := h.imp fun hab => ne_of_lt hab
  have hk : (rows.map rowKey).Nodup := by
    have h2 : ((rows.map rowKey).map Prod.snd).Nodup := by
      rw [List.map_map]
      exact hnd
    exact List.Nodup.of_map _ h2
  unfold aggregate
  rw [stage2_congr_perm (stage1_perm_self hk), stage2_eq_of_sorted h]
  exact (sorted_aggLe_of_sorted_oc (h.imp fun hab => le_of_lt hab)).insertionSort_eq

/-- Witness for the amended C6 at a concrete sorted two-row table. -/
theorem agg_idempotent_on_sorted_witness :
    List.Sorted (· < ·) (rowsC6.map Row.objectCount) ∧
      aggregate rowsC6 = rowsC6.map toAgg :=
  ⟨by decide, agg_idempotent_on_sorted rowsC6 (by decide)⟩

lemma sum_of_allEq {c : ℚ} :
    ∀ {xs : List ℚ}, (∀ x ∈ xs, x = c) → xs.sum = (xs.length : ℚ) * c
  | [], _ => by simp
  | x :: xs, h => by
    have hx : x = c := h x (List.mem_cons_self x xs)
    have ht : ∀ y ∈ xs, y = c := fun y hy => h y (List.mem_cons_of_mem _ hy)
    rw [List.sum_cons, sum_of_allEq ht, hx, List.length_cons]
    push_cast
    ring

lemma sqSum_of_allEq {c : ℚ} {xs : List ℚ} (h : ∀ x ∈ xs, x = c) :
    sqSum xs = (xs.length : ℚ) * (c * c) := by
  unfold sqSum
  have h2 : ∀ y ∈ xs.map fun x => x * x, y = c * c := by
    intro y hy
    obtain ⟨x, hx, rfl⟩ := List.mem_map.mp hy
    rw [h x hx]
  rw [sum_of_allEq h2, List.length_map]

lemma polyfit1_of_allEq (xs ys : List ℚ) (c : ℚ) (h : ∀ x ∈ xs, x = c) :
    polyfit1 xs ys = none := by
  unfold polyfit1
  rw [if_pos]
  rw [sum_of_allEq h, sqSum_of_allEq h]
  ring

lemma polyfit1_normal_eqs (xs ys : List ℚ) (m b : ℚ)
    (h : polyfit1 xs ys = some (m, b)) :
    m * sqSum xs + b * xs.sum = dotSum xs ys ∧
    m * xs.sum + b * (xs.length : ℚ) = ys.sum := by
  unfold polyfit1 at h
  split_ifs at h with hd
  rw [Option.some.injEq, Prod.mk.injEq] at h
  obtain ⟨hm, hb⟩ := h
  subst hm
  subst hb
  constructor
  · field_simp
    ring
  · field_simp
    ring

/-- C8: the trend fitter is the ordinary least-squares degree-1 fit of
latency against object count — whenever it returns coefficients they satisfy
the two OLS normal equations over the aggregated table — and with fewer than
two distinct object counts in the aggregated table the (unguarded) fit is
degenerate: the normal system has a vanishing determinant and no unique
solution, modelled as `none`. -/
theorem trend_fit_ols_and_degenerate :
    (∀ (rows : List Row) (m b : ℚ), fitLine rows = some (m, b) →
        m * sqSum ((aggregate rows).map fun a => (a.objectCount : ℚ)) +
            b * ((aggregate rows).map fun a => (a.objectCount : ℚ)).sum =
          dotSum ((aggregate rows).map fun a => (a.objectCount : ℚ))
            ((aggregate rows).map AggRow.latencyMs) ∧
        m * ((aggregate rows).map fun a => (a.objectCount : ℚ)).sum +
            b * (((aggregate rows).map fun a => (a.objectCount : ℚ)).length : ℚ) =
          ((aggregate rows).map AggRow.latencyMs).sum) ∧
    (∀ rows : List Row,
        ((aggregate rows).map AggRow.objectCount).dedup.length < 2 →
        fitLine rows = none) := by
  constructor
  · intro rows m b h
    exact polyfit1_normal_eqs _ _ _ _ h
  · intro rows hlen
    unfold fitLine
    cases hcase : ((aggregate rows).map AggRow.objectCount).dedup with
    | nil =>
      have h0 : (aggregate rows).map AggRow.objectCount = [] :=
        (List.dedup_eq_nil _).mp hcase
      have hagg : aggregate rows = [] := List.map_eq_nil_iff.mp h0
      rw [hagg]
      norm_num [polyfit1, sqSum, dotSum]
    | cons c t =>
      have ht : t = [] := by
        rw [hcase] at hlen
        simp only [List.length_cons] at hlen
        exact List.length_eq_zero.mp (by omega)
      subst ht
      apply polyfit1_of_allEq _ _ (c : ℚ)
      intro x hx
      obtain ⟨a, ha, rfl⟩ := List.mem_map.mp hx
      have hmem : a.objectCount ∈ ((aggregate rows).map AggRow.objectCount).dedup :=
        List.mem_dedup.mpr (List.mem_map_of_mem _ ha)
      rw [hcase, List.mem_singleton] at hmem
      rw [hmem]

/-- Witness for C8: two frames at a single object count give an aggregated
table with one distinct object count, and the fit is degenerate. -/
theorem trend_fit_ols_and_degenerate_witness :
    ((aggregate rowsC8).map AggRow.objectCount).dedup.length < 2 ∧
      fitLine rowsC8 = none :=
  ⟨by decide, trend_fit_ols_and_degenerate.2 rowsC8 (by decide)⟩
